import Mathlib

/-!
# Verification of the zerodevapp/go-sdk signing and polling core

Shallow embedding of the `signer` package (`SignUserOpHash`,
`VerifyUserOpSignature`, `SignAuthorization`) and of the polling loop
`WaitForUserOpReceipt` of the `useropbuilder` package.

Bytes are modelled as `Nat` (well-formedness `< 256` appears as an explicit
hypothesis where it matters).  The go-ethereum elliptic-curve library is an
external collaborator of this repository; following the source's use of it as
an injected capability, it is modelled as a structure of abstract operations
(`CurveLib`) whose documented contract (65-byte signatures `r ‖ s ‖ v` with
raw recovery id `v ∈ {0,1}`, and recovery inverting signing) appears as
hypotheses of the round-trip theorems.  Everything else — hex
encoding/decoding (`common.FromHex`, `hex.EncodeToString`), address parsing
(`common.HexToAddress`), big-integer byte conversion (`big.Int.SetBytes` /
`big.Int.Bytes`), RLP encoding of the authorization tuple, the personal
message preimage of `accounts.TextHash`, and the polling loop — is embedded
concretely from the source.
-/

set_option autoImplicit false

/-! ## Hex encoding and decoding (`common.FromHex`, `hex.EncodeToString`) -/

/-- Value of one hexadecimal character, as in Go's `encoding/hex`
(`0`–`9`, `a`–`f`, `A`–`F`); `none` on any other character. -/
def hexVal (c : Char) : Option Nat :=
  if 48 ≤ c.toNat ∧ c.toNat ≤ 57 then some (c.toNat - 48)
  else if 97 ≤ c.toNat ∧ c.toNat ≤ 102 then some (c.toNat - 87)
  else if 65 ≤ c.toNat ∧ c.toNat ≤ 70 then some (c.toNat - 55)
  else none

/-- Decode hex characters two at a time, stopping at the first invalid pair:
the semantics of Go's `hex.DecodeString` with the error discarded, as done by
`common.Hex2Bytes`. -/
def hexDecodePairs : List Char → List Nat
  | c1 :: c2 :: rest =>
    match hexVal c1, hexVal c2 with
    | some hi, some lo => (16 * hi + lo) :: hexDecodePairs rest
    | _, _ => []
  | _ => []

/-- Strip a leading `0x` / `0X`, as Go's `common.FromHex` does via
`has0xPrefix`. -/
def strip0x (cs : List Char) : List Char :=
  match cs with
  | c0 :: c1 :: rest =>
    if c0 = '0' ∧ (c1 = 'x' ∨ c1 = 'X') then rest else c0 :: c1 :: rest
  | l => l

/-- Go's `common.FromHex`: strip the `0x` head, left-pad an odd-length hex
string with one `0`, then decode. -/
def fromHex (s : String) : List Nat :=
  let cs := strip0x s.toList
  let cs := if cs.length % 2 = 1 then '0' :: cs else cs
  hexDecodePairs cs

/-- The lowercase hex character of a value `< 16`, as in Go's
`encoding/hex` alphabet. -/
def hexDigit (d : Nat) : Char :=
  if d < 10 then Char.ofNat (48 + d) else Char.ofNat (87 + d)

/-- Lowercase hex characters of a byte list (`hex.EncodeToString`). -/
def hexChars : List Nat → List Char
  | [] => []
  | b :: bs => hexDigit (b / 16) :: hexDigit (b % 16) :: hexChars bs

/-- `"0x" + hex.EncodeToString bs`, the output form used throughout the
signer package. -/
def hexEncode (bs : List Nat) : String :=
  String.mk ('0' :: 'x' :: hexChars bs)

/-! ## Big-endian byte/number conversions (`big.Int.SetBytes` / `.Bytes`) -/

/-- `big.Int.SetBytes`: interpret a byte list as a big-endian number. -/
def bytesToNat (bs : List Nat) : Nat :=
  bs.foldl (fun acc b => acc * 256 + b) 0

/-- Fuel-driven helper for `natToMinBE`; `fuel ≥ n` suffices since the
argument at least halves at each step. -/
def natToMinBEAux : Nat → Nat → List Nat
  | 0, _ => []
  | fuel + 1, n => if n = 0 then [] else natToMinBEAux fuel (n / 256) ++ [n % 256]

/-- `big.Int.Bytes`: the minimal big-endian byte representation, empty for
zero, never a leading zero byte. -/
def natToMinBE (n : Nat) : List Nat :=
  natToMinBEAux n n

/-! ## Addresses (`common.HexToAddress`) -/

/-- `common.BytesToAddress`: keep the last 20 bytes, left-pad with zero
bytes to exactly 20. -/
def bytesToAddress (bs : List Nat) : List Nat :=
  let b := if bs.length > 20 then bs.drop (bs.length - 20) else bs
  List.replicate (20 - b.length) 0 ++ b

/-- `common.HexToAddress` = `BytesToAddress ∘ FromHex`; hex decoding is
case-insensitive, which realises the spec's case-insensitive address
comparison. -/
def hexToAddress (s : String) : List Nat :=
  bytesToAddress (fromHex s)

/-! ## The elliptic-curve library as an injected capability -/

/-- The subset of go-ethereum's `crypto` package used by the signer package,
as an abstract capability (spec §6 names the curve library an injected
collaborator).  `sign h priv` returns the 65-byte `r ‖ s ‖ v` signature
(`crypto.Sign`), `sigToPub` recovers a public key (`crypto.SigToPub`),
`pubkeyToAddress` derives the 20-byte address (`crypto.PubkeyToAddress`) and
`keccak256` is `crypto.Keccak256Hash`. -/
structure CurveLib where
  sign : List Nat → Nat → Option (List Nat)
  sigToPub : List Nat → List Nat → Option Nat
  pubkeyToAddress : Nat → List Nat
  keccak256 : List Nat → List Nat

/-- The byte string `"\x19Ethereum Signed Message:\n" ++ decimal length ++ msg`
hashed by `accounts.TextHash`. -/
def personalPreimage (msg : List Nat) : List Nat :=
  ("\x19Ethereum Signed Message:\n".toList.map Char.toNat)
    ++ ((toString msg.length).toList.map Char.toNat) ++ msg

/-- `accounts.TextHash`: keccak over the personal-message preimage. -/
def textHash (C : CurveLib) (msg : List Nat) : List Nat :=
  C.keccak256 (personalPreimage msg)

/-- The error cases of the signer package, one constructor per distinct
`fmt.Errorf` in the source (the length errors carry the reported length). -/
inductive SignerError where
  | invalidHashLength (got : Nat)
  | invalidSignatureLength (got : Nat)
  | signFailed
  | recoverFailed
deriving DecidableEq

/-! ## `signer.SignUserOpHash` (src/unnamed/part_001 lines 27–60) -/

/-- `SignUserOpHash`: decode the hash, require 32 bytes, personal-message
hash it, sign, normalise the raw recovery id by adding 27 when below 27, and
hex-encode `r ‖ s ‖ v`. -/
def SignUserOpHash (C : CurveLib) (userOpHash : String) (priv : Nat) :
    Except SignerError String :=
  let hashBytes := fromHex userOpHash
  if hashBytes.length ≠ 32 then .error (.invalidHashLength hashBytes.length)
  else
    match C.sign (textHash C hashBytes) priv with
    | none => .error .signFailed
    | some signatureBytes =>
      let v0 := signatureBytes.getD 64 0
      let v := if v0 < 27 then v0 + 27 else v0
      let r := signatureBytes.take 32
      let s := (signatureBytes.drop 32).take 32
      .ok (hexEncode (r ++ s ++ [v]))

/-! ## `signer.VerifyUserOpSignature` (src/unnamed/part_001 lines 73–107) -/

/-- `VerifyUserOpSignature`: decode and length-check the hash (32) and the
signature (65), reduce a trailing byte `≥ 27` by 27, recompute the
personal-message hash, recover the public key, derive its address and compare
with the decoded expected address. -/
def VerifyUserOpSignature (C : CurveLib) (userOpHash signature address : String) :
    Except SignerError Bool :=
  let hashBytes := fromHex userOpHash
  if hashBytes.length ≠ 32 then .error (.invalidHashLength hashBytes.length)
  else
    let sigBytes := fromHex signature
    if sigBytes.length ≠ 65 then .error (.invalidSignatureLength sigBytes.length)
    else
      let sigBytes :=
        if sigBytes.getD 64 0 ≥ 27
        then sigBytes.take 64 ++ [sigBytes.getD 64 0 - 27]
        else sigBytes
      match C.sigToPub (textHash C hashBytes) sigBytes with
      | none => .error .recoverFailed
      | some pubKey =>
        .ok (decide (C.pubkeyToAddress pubKey = hexToAddress address))

/-! ## RLP encoding (go-ethereum `rlp.EncodeToBytes` on the auth tuple)

`rlp.EncodeToBytes([]interface{chainID, addr, nonce})` encodes a `uint64` as
its minimal big-endian byte string and a `common.Address` as a fixed 20-byte
string, each item length-prefixed per the standard RLP rules, and wraps the
concatenation as an RLP list. -/

/-- RLP encoding of a byte string: a single byte below `0x80` stands for
itself; otherwise a length head (`0x80 + len` short form, `0xb7 + lenlen`
long form) precedes the bytes. -/
def rlpStr (bs : List Nat) : List Nat :=
  if bs.length = 1 ∧ bs.headI < 128 then bs
  else if bs.length ≤ 55 then (128 + bs.length) :: bs
  else
    let lenBytes := natToMinBE bs.length
    ((183 + lenBytes.length) :: lenBytes) ++ bs

/-- RLP list head over an already-encoded payload (`0xc0 + len` short form,
`0xf7 + lenlen` long form). -/
def rlpListHead (payload : List Nat) : List Nat :=
  if payload.length ≤ 55 then (192 + payload.length) :: payload
  else
    let lenBytes := natToMinBE payload.length
    ((247 + lenBytes.length) :: lenBytes) ++ payload

/-- RLP encoding of a `uint64`: its minimal big-endian bytes as an RLP
string (zero encodes as the empty string, hence as `0x80`). -/
def rlpUint (n : Nat) : List Nat :=
  rlpStr (natToMinBE n)

/-! ## `signer.SignAuthorization` (src/unnamed/part_001 lines 125–177) -/

/-- The `types.SignedAuthorization` struct of `cmd/types/types.go`
(`V` is a decimal string, `YParity` a `uint8`). -/
structure SignedAuthorization where
  chainID : Nat
  address : String
  nonce : Nat
  v : String
  r : String
  s : String
  yParity : Nat
deriving DecidableEq

/-- `rlp.EncodeToBytes(authTuple)` for `authTuple = [chainID, addr, nonce]`
(lines 131–138 of the source). -/
def authTupleRLP (chainID : Nat) (addr : List Nat) (nonce : Nat) : List Nat :=
  rlpListHead (rlpUint chainID ++ rlpStr addr ++ rlpUint nonce)

/-- `authMessage := append([]byte{0x05}, rlpEncoded...)` (lines 146–147). -/
def authMessage (chainID : Nat) (addr : List Nat) (nonce : Nat) : List Nat :=
  5 :: authTupleRLP chainID addr nonce

/-- `authHash := crypto.Keccak256Hash(authMessage)` (line 150). -/
def authDigest (C : CurveLib) (chainID : Nat) (addr : List Nat) (nonce : Nat) :
    List Nat :=
  C.keccak256 (authMessage chainID addr nonce)

/-- Lines 158–176: extract `r`/`s` as big integers of the first/second 32
signature bytes, keep the raw trailing byte `v`, derive `yParity` by
subtracting 27 only when `v ≥ 27`, truncate it to `uint8`, and render `r`/`s`
as `0x`-prefixed minimal hex and `v` in decimal. -/
def mkSignedAuthorization (chainID : Nat) (delegateAddressHex : String)
    (nonce : Nat) (signature : List Nat) : SignedAuthorization :=
  let rVal := bytesToNat (signature.take 32)
  let sVal := bytesToNat ((signature.drop 32).take 32)
  let v := signature.getD 64 0
  let yParity := if v ≥ 27 then v - 27 else v
  { chainID := chainID
    address := delegateAddressHex
    nonce := nonce
    v := toString v
    r := hexEncode (natToMinBE rVal)
    s := hexEncode (natToMinBE sVal)
    yParity := yParity % 256 }

/-- `SignAuthorization`: RLP-encode the tuple, prepend the magic byte
`0x05`, keccak-hash, sign the hash directly (no personal-message step), and
package the components.  `rlp.EncodeToBytes` cannot fail on this fixed tuple
shape, so its error branch is vacuous and omitted. -/
def SignAuthorization (C : CurveLib) (chainID : Nat) (delegateAddressHex : String)
    (nonce : Nat) (priv : Nat) : Except SignerError SignedAuthorization :=
  let addr := hexToAddress delegateAddressHex
  match C.sign (authDigest C chainID addr nonce) priv with
  | none => .error .signFailed
  | some signature =>
    .ok (mkSignedAuthorization chainID delegateAddressHex nonce signature)

/-! ## `useropbuilder.WaitForUserOpReceipt` (src/unnamed/part_001 lines 367–406)

The loop is a `select` over the timeout context's done channel and a ticker.
A poll invocation is embedded as a function of (a) the injected query — the
outcome of `GetUserOpReceipt` at each attempt number, receipt or failure —
and (b) the schedule of wait-point events, each event being either the done
channel firing (carrying, in the model only, whether it was caller
cancellation or deadline expiry — the code never inspects the reason) or a
ticker tick.  Alongside the result the embedding records the trace of timer
and query actions in source order. -/

/-- A wait-point event: the timeout context's done channel fires
(`cancelled = true` when caused by caller cancellation rather than deadline
expiry), or the ticker ticks. -/
inductive LoopEvent where
  | done (cancelled : Bool)
  | tick
deriving DecidableEq

/-- A loop event with the cancellation/deadline reason erased — what the
code can actually observe at its single `<-timeoutCtx.Done()` case. -/
inductive LoopEventShape where
  | done
  | tick
deriving DecidableEq

/-- Erase the reason of a `done` event. -/
def LoopEvent.shape : LoopEvent → LoopEventShape
  | .done _ => .done
  | .tick => .tick

/-- Observable actions of a poll invocation, in source order: arming the
deadline (`context.WithTimeout`), arming the ticker (`time.NewTicker`), one
query attempt, and the deferred `cancel()` / `ticker.Stop()` pair on
return. -/
inductive PollAction where
  | armDeadline (d : Nat)
  | armTicker (i : Nat)
  | attempt (n : Nat)
  | releaseTimers
deriving DecidableEq

/-- The result of a poll invocation: the receipt, or the
`"timed out waiting for user operation receipt after %d attempts"` error
(the only non-success return of the loop), or still running because the
event schedule ran out. -/
inductive PollResult (α : Type) where
  | success (receipt : α)
  | timedOutMsg (attempts : Nat)
  | running
deriving DecidableEq

/-- The `for { select { ... } }` loop (lines 391–405), entered with
`attemptNum = 2`: a done event returns the timed-out error reporting
`attemptNum - 1` attempts regardless of the done reason; a tick runs the
query, returning the receipt on success and incrementing `attemptNum`
otherwise. -/
def waitLoopAux {α : Type} (query : Nat → Option α) :
    List LoopEvent → Nat → PollResult α × List PollAction
  | [], _ => (.running, [])
  | .done _ :: _, attemptNum => (.timedOutMsg (attemptNum - 1), [])
  | .tick :: rest, attemptNum =>
    match query attemptNum with
    | some receipt => (.success receipt, [.attempt attemptNum])
    | none =>
      let r := waitLoopAux query rest (attemptNum + 1)
      (r.1, .attempt attemptNum :: r.2)

/-- `WaitForUserOpReceipt`: substitute the defaults 2s / 60s (in
nanoseconds, Go's `time.Duration` unit) for zero arguments, arm the deadline
context and the ticker, try the query once immediately, and otherwise run
the loop from `attemptNum = 2`; both timers are released on every return
path via the deferred calls. -/
def WaitForUserOpReceipt {α : Type} (query : Nat → Option α)
    (events : List LoopEvent) (pollInterval timeout : Nat) :
    PollResult α × List PollAction :=
  let pollInterval := if pollInterval = 0 then 2 * 1000000000 else pollInterval
  let timeout := if timeout = 0 then 60 * 1000000000 else timeout
  let pre : List PollAction :=
    [.armDeadline timeout, .armTicker pollInterval, .attempt 1]
  match query 1 with
  | some receipt => (.success receipt, pre ++ [.releaseTimers])
  | none =>
    let r := waitLoopAux query events 2
    (r.1, pre ++ r.2 ++ [.releaseTimers])

/-! ## Concrete curve instances used to instantiate the theorems

These model possible behaviours of the injected library: each returns a
fixed well-formed 65-byte `r ‖ s ‖ v` signature with a raw recovery id in
`{0, 1}` — the documented output contract of `crypto.Sign` (the source
itself notes "crypto.Sign returns [R || S || V] where V is already
0 or 1"). -/

/-- A fixed 20-byte address. -/
def toyAddr : List Nat := List.replicate 19 0 ++ [9]

/-- A fixed test address string. -/
def toyAddrHex : String := hexEncode toyAddr

/-- A 65-byte signature with `r`-value 1, `s`-value 2 and raw recovery
id `v`. -/
def toySig (v : Nat) : List Nat :=
  (List.replicate 31 0 ++ [1]) ++ (List.replicate 31 0 ++ [2]) ++ [v]

/-- A curve library that signs everything with `toySig v` and recovers
public key 7 exactly from that signature. -/
def toyCurve (v : Nat) : CurveLib where
  sign := fun _ _ => some (toySig v)
  sigToPub := fun _ sig => if sig = toySig v then some 7 else none
  pubkeyToAddress := fun _ => toyAddr
  keccak256 := fun l => List.replicate 31 0 ++ [l.length % 256]

/-- A 65-byte signature whose `r` component is all zero bytes. -/
def toySigR0 : List Nat :=
  List.replicate 32 0 ++ (List.replicate 31 0 ++ [2]) ++ [1]

/-- A curve library whose signatures have an all-zero `r` component. -/
def toyCurveR0 : CurveLib where
  sign := fun _ _ => some toySigR0
  sigToPub := fun _ sig => if sig = toySigR0 then some 7 else none
  pubkeyToAddress := fun _ => toyAddr
  keccak256 := fun l => List.replicate 31 0 ++ [l.length % 256]

/-- The all-zero 32-byte test digest, hex encoded. -/
def toyDigestHex : String := hexEncode (List.replicate 32 0)

/-- The wire signature `SignUserOpHash` produces from `toySig 0`:
`r ‖ s ‖ (0 + 27)`. -/
def toyWireSig : String :=
  hexEncode ((List.replicate 31 0 ++ [1]) ++ (List.replicate 31 0 ++ [2]) ++ [27])

/-! ## The library contract of `crypto.Sign` / `crypto.SigToPub` -/

/-- The documented shape of a `crypto.Sign` output: 65 bytes `r ‖ s ‖ v`,
byte-valued, raw recovery id 0 or 1. -/
def SigWellFormed (sig : List Nat) : Prop :=
  sig.length = 65 ∧ (∀ b ∈ sig, b < 256) ∧ sig.getD 64 0 < 2

/-- A valid key pair for a curve library: the address is a well-formed
20-byte value, signatures under `priv` are well formed, and public-key
recovery inverts signing, yielding a key whose derived address is `addr` —
the correctness contract of secp256k1 ECDSA with recovery. -/
structure ValidKeyPair (C : CurveLib) (priv : Nat) (addr : List Nat) : Prop where
  addr_len : addr.length = 20
  addr_bytes : ∀ b ∈ addr, b < 256
  sign_wf : ∀ h sig, C.sign h priv = some sig → SigWellFormed sig
  recover_sign : ∀ h sig, C.sign h priv = some sig →
    ∃ pub, C.sigToPub h sig = some pub ∧ C.pubkeyToAddress pub = addr

/-- `toyCurve 0` with private key 5 and address `toyAddr` satisfies the
key-pair contract. -/
theorem toyValidKeyPair : ValidKeyPair (toyCurve 0) 5 toyAddr := by
  refine ⟨by decide, by decide, ?_, ?_⟩
  · intro h sig hs
    have hsig : toySig 0 = sig := Option.some.inj hs
    subst hsig
    exact ⟨by decide, by decide, by decide⟩
  · intro h sig hs
    have hsig : toySig 0 = sig := Option.some.inj hs
    subst hsig
    exact ⟨7, by simp [toyCurve], rfl⟩

/-! ## Helper lemmas: hex round trip -/

theorem hexVal_hexDigit (d : Nat) (hd : d < 16) : hexVal (hexDigit d) = some d := by
  interval_cases d <;> decide

theorem hexChars_length (bs : List Nat) : (hexChars bs).length = 2 * bs.length := by
  induction bs with
  | nil => rfl
  | cons b bs ih => simp [hexChars, ih]; omega

theorem hexDecodePairs_hexChars (bs : List Nat) (hb : ∀ b ∈ bs, b < 256) :
    hexDecodePairs (hexChars bs) = bs := by
  induction bs with
  | nil => rfl
  | cons b bs ih =>
    have hblt : b < 256 := hb b (List.mem_cons_self b bs)
    have h1 : b / 16 < 16 := by omega
    have h2 : b % 16 < 16 := by omega
    simp only [hexChars, hexDecodePairs, hexVal_hexDigit _ h1, hexVal_hexDigit _ h2]
    rw [ih (fun x hx => hb x (List.mem_cons_of_mem b hx))]
    congr 1
    omega

theorem fromHex_hexEncode (bs : List Nat) (hb : ∀ b ∈ bs, b < 256) :
    fromHex (hexEncode bs) = bs := by
  have htl : (hexEncode bs).toList = '0' :: 'x' :: hexChars bs := rfl
  have hstrip : strip0x ('0' :: 'x' :: hexChars bs) = hexChars bs := by
    simp [strip0x]
  have hlen : (hexChars bs).length % 2 = 0 := by
    rw [hexChars_length]; omega
  simp only [fromHex, htl, hstrip, hlen]
  simp only [Nat.zero_ne_one, if_false]
  exact hexDecodePairs_hexChars bs hb

/-! ## Helper lemmas: list indexing and splitting -/

theorem getD_append_own_length (A : List Nat) (x : Nat) :
    (A ++ [x]).getD A.length 0 = x := by
  induction A with
  | nil => rfl
  | cons a A ih =>
    simp only [List.cons_append, List.length_cons, List.getD_cons_succ]
    exact ih

theorem take_append_own_length (A B : List Nat) : (A ++ B).take A.length = A := by
  induction A with
  | nil => rfl
  | cons a A ih =>
    simp only [List.cons_append, List.length_cons, List.take_succ_cons]
    rw [ih]

theorem sig_split_last (S : List Nat) (hlen : S.length = 65) :
    S = S.take 64 ++ [S.getD 64 0] := by
  have hd : (S.drop 64).length = 1 := by
    rw [List.length_drop, hlen]
  obtain ⟨x, hx⟩ : ∃ x, S.drop 64 = [x] := by
    cases hds : S.drop 64 with
    | nil => rw [hds] at hd; simp at hd
    | cons y ys =>
      rw [hds] at hd
      simp only [List.length_cons] at hd
      have : ys = [] := List.length_eq_zero.mp (by omega)
      exact ⟨y, by rw [this]⟩
  have htd := List.take_append_drop 64 S
  have hgd : S.getD 64 0 = x := by
    have h64 : (S.take 64).length = 64 := by
      rw [List.length_take, hlen]
      omega
    have hga := getD_append_own_length (S.take 64) x
    rw [h64] at hga
    calc S.getD 64 0 = (S.take 64 ++ S.drop 64).getD 64 0 := by rw [htd]
      _ = (S.take 64 ++ [x]).getD 64 0 := by rw [hx]
      _ = x := hga
  rw [hgd, ← hx, htd]

theorem take64_eq_r_append_s (S : List Nat) :
    S.take 64 = S.take 32 ++ (S.drop 32).take 32 := by
  have : (64 : Nat) = 32 + 32 := by norm_num
  rw [this, List.take_add]

/-! ## Helper lemmas: addresses -/

theorem bytesToAddress_length (bs : List Nat) : (bytesToAddress bs).length = 20 := by
  simp only [bytesToAddress]
  split
  · simp only [List.length_append, List.length_replicate, List.length_drop]
    omega
  · simp only [List.length_append, List.length_replicate]
    omega

theorem hexToAddress_length (s : String) : (hexToAddress s).length = 20 :=
  bytesToAddress_length _

theorem hexToAddress_hexEncode (addr : List Nat) (hlen : addr.length = 20)
    (hb : ∀ b ∈ addr, b < 256) : hexToAddress (hexEncode addr) = addr := by
  simp only [hexToAddress, fromHex_hexEncode addr hb, bytesToAddress, hlen]
  norm_num
  omega

/-! ## Helper lemmas: minimal big-endian encoding -/

theorem natToMinBEAux_zero (fuel : Nat) : natToMinBEAux fuel 0 = [] := by
  cases fuel <;> rfl

theorem natToMinBEAux_fuel_irrel (f1 : Nat) : ∀ f2 n, n ≤ f1 → n ≤ f2 →
    natToMinBEAux f1 n = natToMinBEAux f2 n := by
  induction f1 with
  | zero =>
    intro f2 n h1 _
    have : n = 0 := by omega
    subst this
    rw [natToMinBEAux_zero, natToMinBEAux_zero]
  | succ f1 ih =>
    intro f2 n h1 h2
    by_cases hn : n = 0
    · subst hn; rw [natToMinBEAux_zero, natToMinBEAux_zero]
    · cases f2 with
      | zero => omega
      | succ f2 =>
        simp only [natToMinBEAux, hn, if_false]
        have hdiv : n / 256 < n := Nat.div_lt_self (by omega) (by omega)
        rw [ih f2 (n / 256) (by omega) (by omega)]

theorem natToMinBE_step (n : Nat) (hn : n ≠ 0) :
    natToMinBE n = natToMinBE (n / 256) ++ [n % 256] := by
  cases hcn : n with
  | zero => exact absurd hcn hn
  | succ m =>
    simp only [natToMinBE, natToMinBEAux, Nat.succ_ne_zero, if_false]
    have hdiv : (m + 1) / 256 < m + 1 := Nat.div_lt_self (by omega) (by omega)
    rw [natToMinBEAux_fuel_irrel m ((m+1)/256) ((m+1)/256) (by omega) (by omega)]

theorem bytesToNat_append_one (A : List Nat) (b : Nat) :
    bytesToNat (A ++ [b]) = bytesToNat A * 256 + b := by
  simp [bytesToNat, List.foldl_append]

theorem bytesToNat_natToMinBE (k : Nat) : bytesToNat (natToMinBE k) = k := by
  induction k using Nat.strong_induction_on with
  | _ k ih =>
    by_cases hk : k = 0
    · subst hk; rfl
    · rw [natToMinBE_step k hk, bytesToNat_append_one,
        ih (k / 256) (Nat.div_lt_self (by omega) (by omega))]
      omega

theorem natToMinBE_mul_add (m b : Nat) (hb : b < 256) (hnz : 256 * m + b ≠ 0) :
    natToMinBE (256 * m + b) = natToMinBE m ++ [b] := by
  rw [natToMinBE_step (256 * m + b) hnz]
  have h1 : (256 * m + b) / 256 = m := by omega
  have h2 : (256 * m + b) % 256 = b := by omega
  rw [h1, h2]

theorem natToMinBE_head_ne_zero (k : Nat) (hk : 0 < k) :
    (natToMinBE k).headI ≠ 0 ∧ natToMinBE k ≠ [] := by
  induction k using Nat.strong_induction_on with
  | _ k ih =>
    have hk0 : k ≠ 0 := by omega
    rw [natToMinBE_step k hk0]
    by_cases hq : k / 256 = 0
    · have hklt : k < 256 := by omega
      rw [hq]
      simp only [natToMinBE, natToMinBEAux_zero, List.nil_append]
      have : k % 256 = k := by omega
      rw [this]
      exact ⟨by simp only [List.headI]; omega, by simp⟩
    · obtain ⟨h1, h2⟩ := ih (k / 256) (Nat.div_lt_self (by omega) (by omega)) (by omega)
      cases hA : natToMinBE (k / 256) with
      | nil => exact absurd hA h2
      | cons a A =>
        rw [hA] at h1
        simp only [List.headI] at h1
        exact ⟨by simpa using h1, by simp⟩

theorem natToMinBE_length_le (m : Nat) : ∀ fuel n, n ≤ fuel → n < 256 ^ m →
    (natToMinBEAux fuel n).length ≤ m := by
  induction m with
  | zero =>
    intro fuel n _ hn
    have : n = 0 := by simpa using hn
    subst this
    rw [natToMinBEAux_zero]
    simp
  | succ m ih =>
    intro fuel n hf hn
    by_cases h0 : n = 0
    · subst h0; rw [natToMinBEAux_zero]; simp
    · cases fuel with
      | zero => omega
      | succ f =>
        simp only [natToMinBEAux, h0, if_false, List.length_append,
          List.length_cons, List.length_nil]
        have hdlt : n / 256 < 256 ^ m := by
          rw [Nat.div_lt_iff_lt_mul (by omega : (0:Nat) < 256)]
          calc n < 256 ^ (m + 1) := hn
            _ = 256 ^ m * 256 := by rw [pow_succ]
        have hdf : n / 256 ≤ f := by
          have : n / 256 < n := Nat.div_lt_self (by omega) (by omega)
          omega
        have := ih f (n / 256) hdf hdlt
        omega

theorem natToMinBE_length_le_8 (n : Nat) (hn : n < 2 ^ 64) :
    (natToMinBE n).length ≤ 8 := by
  have h : (256 : Nat) ^ 8 = 2 ^ 64 := by norm_num
  exact natToMinBE_length_le 8 n n (le_refl n) (by omega)

theorem bytesToNat_cons_zero (t : List Nat) : bytesToNat (0 :: t) = bytesToNat t := rfl

theorem foldl_bytes_lower (t : List Nat) : ∀ acc : Nat,
    acc * 256 ^ t.length ≤ t.foldl (fun acc b => acc * 256 + b) acc := by
  induction t with
  | nil => intro acc; simp
  | cons b t ih =>
    intro acc
    simp only [List.foldl_cons, List.length_cons]
    calc acc * 256 ^ (t.length + 1) = (acc * 256) * 256 ^ t.length := by ring
      _ ≤ (acc * 256 + b) * 256 ^ t.length := Nat.mul_le_mul_right _ (by omega)
      _ ≤ t.foldl (fun acc b => acc * 256 + b) (acc * 256 + b) := ih (acc * 256 + b)

theorem bytesToNat_pos_of_headI_ne_zero (h : Nat) (t : List Nat) (hh : h ≠ 0) :
    0 < bytesToNat (h :: t) := by
  have h1 : h * 256 ^ t.length ≤ t.foldl (fun acc b => acc * 256 + b) h :=
    foldl_bytes_lower t h
  have h2 : bytesToNat (h :: t) = t.foldl (fun acc b => acc * 256 + b) h := by
    simp [bytesToNat]
  have h3 : 0 < h * 256 ^ t.length :=
    Nat.mul_pos (by omega) (pow_pos (by omega) _)
  omega

theorem natToMinBE_bytesToNat (bs : List Nat) :
    (∀ b ∈ bs, b < 256) → bs ≠ [] → bs.headI ≠ 0 →
    natToMinBE (bytesToNat bs) = bs := by
  induction bs using List.reverseRecOn with
  | nil => intro _ hne _; exact absurd rfl hne
  | append_singleton A b ih =>
    intro hb _ hh
    have hblt : b < 256 := hb b (by simp)
    cases hA : A with
    | nil =>
      subst hA
      have hbnz : b ≠ 0 := by simpa using hh
      have hval : bytesToNat [b] = b := by simp [bytesToNat]
      rw [List.nil_append, hval]
      have := natToMinBE_mul_add 0 b hblt (by omega)
      simpa using this
    | cons a A' =>
      have hAne : A ≠ [] := by rw [hA]; simp
      have hAh : A.headI ≠ 0 := by
        have he : (A ++ [b]).headI = A.headI := by rw [hA]; simp
        rw [he] at hh
        exact hh
      have hApos : 0 < bytesToNat A := by
        rw [hA]
        apply bytesToNat_pos_of_headI_ne_zero
        rw [hA] at hAh
        simpa using hAh
      rw [← hA, bytesToNat_append_one, mul_comm (bytesToNat A) 256,
        natToMinBE_mul_add (bytesToNat A) b hblt (by omega),
        ih (fun x hx => hb x (List.mem_append_left _ hx)) hAne hAh]

theorem natToMinBE_bytesToNat_dropWhile (bs : List Nat) (hb : ∀ b ∈ bs, b < 256) :
    natToMinBE (bytesToNat bs) = bs.dropWhile (fun b => b == 0) := by
  induction bs with
  | nil => rfl
  | cons h t ih =>
    by_cases hh : h = 0
    · subst hh
      rw [bytesToNat_cons_zero, List.dropWhile_cons]
      simp only [beq_self_eq_true, if_true]
      exact ih (fun x hx => hb x (List.mem_cons_of_mem _ hx))
    · rw [List.dropWhile_cons]
      have hf : (h == 0) = false := by simpa using hh
      rw [hf]
      simp only [Bool.false_eq_true, if_false]
      exact natToMinBE_bytesToNat (h :: t) hb (by simp) (by simpa using hh)

/-! ## Claim theorems -/

/-- C7: input-length validation fails fast before any cryptographic
operation.  `SignUserOpHash` returns the invalid-hash-length error for every
digest whose decoded length is not 32 bytes, and `VerifyUserOpSignature`
returns the invalid-signature-length error for every signature whose decoded
length is not 65 bytes; in each failing case the result is independent of the
curve library, i.e. no signing or recovery is attempted. -/
theorem C7_fail_fast_length_validation (C C' : CurveLib) (d sigStr a : String)
    (priv : Nat) :
    ((fromHex d).length ≠ 32 →
      SignUserOpHash C d priv = .error (.invalidHashLength (fromHex d).length)
      ∧ SignUserOpHash C d priv = SignUserOpHash C' d priv
      ∧ VerifyUserOpSignature C d sigStr a
          = .error (.invalidHashLength (fromHex d).length))
    ∧ ((fromHex d).length = 32 → (fromHex sigStr).length ≠ 65 →
      VerifyUserOpSignature C d sigStr a
        = .error (.invalidSignatureLength (fromHex sigStr).length)
      ∧ VerifyUserOpSignature C d sigStr a = VerifyUserOpSignature C' d sigStr a) := by
  constructor
  · intro hlen
    refine ⟨?_, ?_, ?_⟩ <;> simp [SignUserOpHash, VerifyUserOpSignature, hlen]
  · intro hlen hslen
    constructor <;> simp [VerifyUserOpSignature, hlen, hslen]

/-- Witness for C7 at digests of decoded length 31 and 33 and a signature of
decoded length 64 (the two toy curve libraries differ, so the equalities are
not vacuous). -/
theorem C7_witness :
    SignUserOpHash (toyCurve 0) (hexEncode (List.replicate 31 0)) 5
      = .error (.invalidHashLength 31)
    ∧ SignUserOpHash (toyCurve 0) (hexEncode (List.replicate 33 0)) 5
      = .error (.invalidHashLength 33)
    ∧ VerifyUserOpSignature (toyCurve 0) toyDigestHex
        (hexEncode (List.replicate 64 0)) toyAddrHex
      = .error (.invalidSignatureLength 64) := by
  refine ⟨?_, ?_, ?_⟩
  · exact ((C7_fail_fast_length_validation (toyCurve 0) (toyCurve 1)
      (hexEncode (List.replicate 31 0)) "" "" 5).1 (by decide)).1
  · exact ((C7_fail_fast_length_validation (toyCurve 0) (toyCurve 1)
      (hexEncode (List.replicate 33 0)) "" "" 5).1 (by decide)).1
  · exact ((C7_fail_fast_length_validation (toyCurve 0) (toyCurve 1)
      toyDigestHex (hexEncode (List.replicate 64 0)) toyAddrHex 5).2
      (by decide) (by decide)).1

/-- C5: on a 32-byte digest, when the curve library returns a well-formed
65-byte signature with raw recovery id 0 or 1, `SignUserOpHash` returns the
hex encoding of the 65-byte wire signature `r(32) ‖ s(32) ‖ v(1)` in which
`v` is the raw id plus 27, hence 27 or 28. -/
theorem C5_wire_signature_format (C : CurveLib) (d : String) (priv : Nat)
    (S : List Nat) (hd : (fromHex d).length = 32)
    (hsign : C.sign (textHash C (fromHex d)) priv = some S)
    (hlen : S.length = 65) (hv : S.getD 64 0 < 2) :
    SignUserOpHash C d priv
      = .ok (hexEncode (S.take 32 ++ ((S.drop 32).take 32 ++ [S.getD 64 0 + 27])))
    ∧ (S.take 32).length = 32
    ∧ ((S.drop 32).take 32).length = 32
    ∧ (S.take 32 ++ ((S.drop 32).take 32 ++ [S.getD 64 0 + 27])).length = 65
    ∧ (S.getD 64 0 + 27 = 27 ∨ S.getD 64 0 + 27 = 28) := by
  have h27 : S.getD 64 0 < 27 := by omega
  refine ⟨?_, ?_, ?_, ?_, by omega⟩
  · have h27' : S[64]?.getD 0 < 27 := by simpa [List.getD] using h27
    simp [SignUserOpHash, hd, hsign, h27']
  · simp [List.length_take, hlen]
  · simp [List.length_take, List.length_drop, hlen]
  · simp [List.length_append, List.length_take, List.length_drop, hlen]

/-- Witness for C5 at the toy curve with raw recovery id 0. -/
theorem C5_witness :
    SignUserOpHash (toyCurve 0) toyDigestHex 5 = .ok toyWireSig := by
  have h := C5_wire_signature_format (toyCurve 0) toyDigestHex 5 (toySig 0)
    (by decide) rfl (by decide) (by decide)
  exact h.1

/-- `VerifyUserOpSignature` on well-shaped inputs, reduced to the recovery
call on the v-normalised signature bytes. -/
theorem VerifyUserOpSignature_normalized (C : CurveLib) (d a : String)
    (sb : List Nat) (hd : (fromHex d).length = 32)
    (hb : ∀ b ∈ sb, b < 256) (hlen : sb.length = 65) :
    VerifyUserOpSignature C d (hexEncode sb) a
      = match C.sigToPub (textHash C (fromHex d))
          (if sb.getD 64 0 ≥ 27 then sb.take 64 ++ [sb.getD 64 0 - 27] else sb) with
        | none => .error .recoverFailed
        | some pubKey => .ok (decide (C.pubkeyToAddress pubKey = hexToAddress a)) := by
  simp only [VerifyUserOpSignature, fromHex_hexEncode sb hb]
  rw [if_neg (by omega), if_neg (by omega)]

/-- C10: `VerifyUserOpSignature` accepts the trailing recovery byte in either
convention — for a 64-byte `r ‖ s` body and raw parity `p ∈ {0, 1}`, the
signatures `r ‖ s ‖ p` and `r ‖ s ‖ (p + 27)` verify identically, because a
trailing byte `≥ 27` is reduced by 27 before recovery and a byte below 27 is
passed through unchanged. -/
theorem C10_parity_convention_equivalence (C : CurveLib) (d a : String)
    (rs : List Nat) (p : Nat) (hd : (fromHex d).length = 32)
    (hlen : rs.length = 64) (hb : ∀ b ∈ rs, b < 256) (hp : p < 2) :
    VerifyUserOpSignature C d (hexEncode (rs ++ [p])) a
      = VerifyUserOpSignature C d (hexEncode (rs ++ [p + 27])) a := by
  have hb1 : ∀ b ∈ rs ++ [p], b < 256 := by
    intro b hbm
    rcases List.mem_append.mp hbm with h | h
    · exact hb b h
    · simp only [List.mem_singleton] at h; omega
  have hb2 : ∀ b ∈ rs ++ [p + 27], b < 256 := by
    intro b hbm
    rcases List.mem_append.mp hbm with h | h
    · exact hb b h
    · simp only [List.mem_singleton] at h; omega
  have hl1 : (rs ++ [p]).length = 65 := by simp [hlen]
  have hl2 : (rs ++ [p + 27]).length = 65 := by simp [hlen]
  have hgd1 : (rs ++ [p]).getD 64 0 = p := by
    have := getD_append_own_length rs p
    rwa [hlen] at this
  have hgd2 : (rs ++ [p + 27]).getD 64 0 = p + 27 := by
    have := getD_append_own_length rs (p + 27)
    rwa [hlen] at this
  have htk : (rs ++ [p + 27]).take 64 = rs := by
    have := take_append_own_length rs [p + 27]
    rwa [hlen] at this
  rw [VerifyUserOpSignature_normalized C d a (rs ++ [p]) hd hb1 hl1,
    VerifyUserOpSignature_normalized C d a (rs ++ [p + 27]) hd hb2 hl2,
    hgd1, hgd2, htk]
  rw [if_neg (by omega), if_pos (by omega)]
  have harith : p + 27 - 27 = p := by omega
  rw [harith]

/-- Witness for C10 at a concrete digest, body, parity 1 and the toy
curve. -/
theorem C10_witness :
    VerifyUserOpSignature (toyCurve 1) toyDigestHex
        (hexEncode ((List.replicate 31 0 ++ [1]) ++ (List.replicate 31 0 ++ [2]) ++ [1]))
        toyAddrHex
      = VerifyUserOpSignature (toyCurve 1) toyDigestHex
        (hexEncode ((List.replicate 31 0 ++ [1]) ++ (List.replicate 31 0 ++ [2]) ++ [28]))
        toyAddrHex := by
  have h := C10_parity_convention_equivalence (toyCurve 1) toyDigestHex toyAddrHex
    ((List.replicate 31 0 ++ [1]) ++ (List.replicate 31 0 ++ [2])) 1
    (by decide) (by decide) (by decide) (by decide)
  simpa [List.append_assoc] using h

/-- C1: for every digest string decoding to 32 bytes and every key pair
satisfying the curve library's correctness contract, verifying the signature
produced by `SignUserOpHash` against the signer's address succeeds:
`VerifyUserOpSignature` returns `true` with no error. -/
theorem C1_sign_verify_roundtrip (C : CurveLib) (priv : Nat) (addr : List Nat)
    (d sigHex : String) (hkp : ValidKeyPair C priv addr)
    (hsig : SignUserOpHash C d priv = .ok sigHex) :
    VerifyUserOpSignature C d sigHex (hexEncode addr) = .ok true := by
  by_cases hd : (fromHex d).length = 32
  case neg => simp [SignUserOpHash, hd] at hsig
  case pos =>
    cases hsgn : C.sign (textHash C (fromHex d)) priv with
    | none => simp [SignUserOpHash, hd, hsgn] at hsig
    | some S =>
      obtain ⟨hS65, hSb, hSv⟩ := hkp.sign_wf _ _ hsgn
      have h27 : S.getD 64 0 < 27 := by omega
      have hout : sigHex
          = hexEncode (S.take 32 ++ ((S.drop 32).take 32 ++ [S.getD 64 0 + 27])) := by
        simp only [SignUserOpHash, hd] at hsig
        rw [if_neg (by omega)] at hsig
        rw [hsgn] at hsig
        simp only [List.append_assoc] at hsig
        rw [if_pos h27] at hsig
        exact (Except.ok.inj hsig).symm
      have hoblen : (S.take 32 ++ ((S.drop 32).take 32 ++ [S.getD 64 0 + 27])).length
          = 65 := by
        simp [List.length_append, List.length_take, List.length_drop, hS65]
      have hobb : ∀ b ∈ S.take 32 ++ ((S.drop 32).take 32 ++ [S.getD 64 0 + 27]),
          b < 256 := by
        intro b hbm
        rcases List.mem_append.mp hbm with h | h
        · exact hSb b (List.take_subset _ _ h)
        · rcases List.mem_append.mp h with h' | h'
          · exact hSb b (List.drop_subset _ _ (List.take_subset _ _ h'))
          · simp only [List.mem_singleton] at h'
            omega
      rw [hout, VerifyUserOpSignature_normalized C d (hexEncode addr) _ hd hobb hoblen]
      have hA64 : (S.take 32 ++ (S.drop 32).take 32).length = 64 := by
        simp [List.length_append, List.length_take, List.length_drop, hS65]
      have hgd : (S.take 32 ++ ((S.drop 32).take 32 ++ [S.getD 64 0 + 27])).getD 64 0
          = S.getD 64 0 + 27 := by
        have := getD_append_own_length (S.take 32 ++ (S.drop 32).take 32) (S.getD 64 0 + 27)
        rw [hA64, List.append_assoc] at this
        exact this
      have htk : (S.take 32 ++ ((S.drop 32).take 32 ++ [S.getD 64 0 + 27])).take 64
          = S.take 32 ++ (S.drop 32).take 32 := by
        have := take_append_own_length (S.take 32 ++ (S.drop 32).take 32)
          [S.getD 64 0 + 27]
        rw [hA64, List.append_assoc] at this
        exact this
      rw [hgd]
      rw [if_pos (by omega), htk]
      have harith : S.getD 64 0 + 27 - 27 = S.getD 64 0 := by omega
      rw [harith, ← take64_eq_r_append_s S, ← sig_split_last S hS65]
      obtain ⟨pub, hrec, haddr⟩ := hkp.recover_sign _ _ hsgn
      rw [hrec]
      simp [haddr, hexToAddress_hexEncode addr hkp.addr_len hkp.addr_bytes]

/-- Witness for C1: the toy key pair, the all-zero digest and the concrete
wire signature `SignUserOpHash` produces for it. -/
theorem C1_witness :
    VerifyUserOpSignature (toyCurve 0) toyDigestHex toyWireSig (hexEncode toyAddr)
      = .ok true :=
  C1_sign_verify_roundtrip (toyCurve 0) 5 toyAddr toyDigestHex toyWireSig
    toyValidKeyPair (by rfl)

/-- C2 (amended): with the curve library's documented raw recovery id
`v ∈ {0, 1}`, every authorization returned by `SignAuthorization` has
`yParity` equal to the raw `v` — hence 0 or 1 — and its `V` field is the
decimal rendering of that same raw `v` ("0" or "1"); no 27 offset relates
the two fields, because the source stores `signature[64]` unnormalised. -/
theorem C2_yparity_equals_raw_v (C : CurveLib) (ch n priv : Nat) (aHex : String)
    (S : List Nat)
    (hsign : C.sign (authDigest C ch (hexToAddress aHex) n) priv = some S)
    (hv : S.getD 64 0 < 2) :
    SignAuthorization C ch aHex n priv = .ok (mkSignedAuthorization ch aHex n S)
    ∧ (mkSignedAuthorization ch aHex n S).yParity = S.getD 64 0
    ∧ (mkSignedAuthorization ch aHex n S).yParity < 2
    ∧ (mkSignedAuthorization ch aHex n S).v = toString (S.getD 64 0) := by
  have h2 : (mkSignedAuthorization ch aHex n S).yParity = S.getD 64 0 := by
    simp only [mkSignedAuthorization]
    rw [if_neg (by omega)]
    omega
  exact ⟨by simp only [SignAuthorization, hsign], h2, by omega, rfl⟩

/-- Witness for the amended C2 at the toy curve with raw recovery id 0. -/
theorem C2_witness :
    SignAuthorization (toyCurve 0) 1 toyAddrHex 0 5
      = .ok (mkSignedAuthorization 1 toyAddrHex 0 (toySig 0))
    ∧ (mkSignedAuthorization 1 toyAddrHex 0 (toySig 0)).yParity = (toySig 0).getD 64 0
    ∧ (mkSignedAuthorization 1 toyAddrHex 0 (toySig 0)).yParity < 2
    ∧ (mkSignedAuthorization 1 toyAddrHex 0 (toySig 0)).v
        = toString ((toySig 0).getD 64 0) :=
  C2_yparity_equals_raw_v (toyCurve 0) 1 0 5 toyAddrHex (toySig 0) rfl (by decide)

/-- Counterexample to C2 as stated: the curve library's contract delivers a
raw recovery id of 0 or 1 (the source itself notes "V is already 0 or 1"),
and at such an input the returned authorization's `V` field is `"0"` — not
the wire-legacy `"27"`/`"28"` — while `yParity` is 0, so the claimed
invariant `yParity = v − 27` fails. -/
theorem C2_counterexample :
    SignAuthorization (toyCurve 0) 1 toyAddrHex 0 5
      = .ok (mkSignedAuthorization 1 toyAddrHex 0 (toySig 0))
    ∧ (mkSignedAuthorization 1 toyAddrHex 0 (toySig 0)).v = "0"
    ∧ (mkSignedAuthorization 1 toyAddrHex 0 (toySig 0)).v ≠ "27"
    ∧ (mkSignedAuthorization 1 toyAddrHex 0 (toySig 0)).v ≠ "28"
    ∧ (mkSignedAuthorization 1 toyAddrHex 0 (toySig 0)).yParity = 0 :=
  ⟨rfl, rfl, by decide, by decide, rfl⟩

/-! ## C4: structure of the authorization digest -/

theorem rlpStr_short (bs : List Nat) (h : bs.length ≤ 55) :
    rlpStr bs = if bs.length = 1 ∧ bs.headI < 128 then bs
      else (128 + bs.length) :: bs := by
  by_cases h1 : bs.length = 1 ∧ bs.headI < 128
  · simp [rlpStr, h1]
  · simp [rlpStr, h1, h]

theorem rlpStr_addr (addr : List Nat) (h : addr.length = 20) :
    rlpStr addr = 148 :: addr := by
  rw [rlpStr_short addr (by omega), if_neg (by simp [h]), h]

theorem rlpListHead_short (p : List Nat) (h : p.length ≤ 55) :
    rlpListHead p = (192 + p.length) :: p := by
  simp [rlpListHead, h]

theorem rlpUint_small (k : Nat) (hk : k < 2 ^ 64) :
    rlpUint k = if (natToMinBE k).length = 1 ∧ (natToMinBE k).headI < 128
      then natToMinBE k else (128 + (natToMinBE k).length) :: natToMinBE k :=
  rlpStr_short _ (by have := natToMinBE_length_le_8 k hk; omega)

theorem rlpUint_length_le (k : Nat) (hk : k < 2 ^ 64) : (rlpUint k).length ≤ 9 := by
  have h8 := natToMinBE_length_le_8 k hk
  rw [rlpUint, rlpStr_short _ (by omega)]
  split
  · omega
  · simp only [List.length_cons]; omega

/-- Modelled from the spec (§6): the authorization wire preimage
`0x05 ‖ RLP([chainId, delegateAddress(20 bytes), nonce])`, spelled out with
the spec's own encoding words — integers as minimal big-endian byte strings
with leading zeros stripped (zero as the empty string), each length-prefixed
(`0x80 + len`) unless a single byte below `0x80`, the address as a
fixed-length 20-byte string (head `0x94 = 0x80 + 20`), and the enclosing
short-form list head `0xc0 + payload length`. -/
def specAuthPreimage (chainID : Nat) (addr : List Nat) (nonce : Nat) : List Nat :=
  let encInt := fun (b : List Nat) =>
    if b.length = 1 ∧ b.headI < 128 then b else (128 + b.length) :: b
  let payload := encInt (natToMinBE chainID)
    ++ (148 :: addr) ++ encInt (natToMinBE nonce)
  5 :: (192 + payload.length) :: payload

/-- C4: for `uint64` inputs, the byte sequence `SignAuthorization` hashes is
exactly the magic byte `0x05` followed by the RLP encoding of
`[chainId, delegateAddress, nonce]` (the spec-side rendering
`specAuthPreimage`); its first byte is `0x05`, so it is never a
personal-message preimage (those start with `0x19`); `SignAuthorization`
factors through the keccak hash of that preimage; and the digest is
deterministic — identical tuples yield identical digests. -/
theorem C4_auth_digest_structure (C : CurveLib) (ch n priv : Nat) (aHex : String)
    (hch : ch < 2 ^ 64) (hn : n < 2 ^ 64) :
    authMessage ch (hexToAddress aHex) n = specAuthPreimage ch (hexToAddress aHex) n
    ∧ (authMessage ch (hexToAddress aHex) n).headI = 5
    ∧ (∀ m : List Nat, authMessage ch (hexToAddress aHex) n ≠ personalPreimage m)
    ∧ (SignAuthorization C ch aHex n priv
        = match C.sign (C.keccak256 (specAuthPreimage ch (hexToAddress aHex) n)) priv with
          | none => .error .signFailed
          | some sig => .ok (mkSignedAuthorization ch aHex n sig))
    ∧ (∀ ch' n' : Nat, ∀ aHex' : String, ch' = ch → n' = n →
        hexToAddress aHex' = hexToAddress aHex →
        authDigest C ch' (hexToAddress aHex') n' = authDigest C ch (hexToAddress aHex) n) := by
  have hal : (hexToAddress aHex).length = 20 := hexToAddress_length aHex
  have hpay : (rlpUint ch ++ rlpStr (hexToAddress aHex) ++ rlpUint n).length ≤ 55 := by
    have h1 := rlpUint_length_le ch hch
    have h2 := rlpUint_length_le n hn
    have h3 : (rlpStr (hexToAddress aHex)).length = 21 := by
      rw [rlpStr_addr _ hal]
      simp [hal]
    simp only [List.length_append]
    omega
  have hmain : authMessage ch (hexToAddress aHex) n
      = specAuthPreimage ch (hexToAddress aHex) n := by
    simp only [authMessage, authTupleRLP, specAuthPreimage]
    rw [rlpListHead_short _ hpay, rlpUint_small ch hch, rlpUint_small n hn,
      rlpStr_addr _ hal]
  have hne : ∀ m : List Nat, authMessage ch (hexToAddress aHex) n ≠ personalPreimage m := by
    intro m hcontra
    have h5 : (authMessage ch (hexToAddress aHex) n).headI = 5 := rfl
    have h25 : (personalPreimage m).headI = 25 := rfl
    rw [hcontra, h25] at h5
    exact absurd h5 (by omega)
  refine ⟨hmain, rfl, hne, ?_, ?_⟩
  · simp only [SignAuthorization, authDigest, hmain]
  · intro ch' n' aHex' h1 h2 h3
    rw [h1, h2, h3]

/-- Witness for C4 at chain id 1, the toy address and nonce 0. -/
theorem C4_witness :
    authMessage 1 (hexToAddress toyAddrHex) 0 = specAuthPreimage 1 (hexToAddress toyAddrHex) 0
    ∧ SignAuthorization (toyCurve 0) 1 toyAddrHex 0 5
      = .ok (mkSignedAuthorization 1 toyAddrHex 0 (toySig 0)) := by
  have h := C4_auth_digest_structure (toyCurve 0) 1 0 5 toyAddrHex (by norm_num)
    (by norm_num)
  refine ⟨h.1, ?_⟩
  rw [h.2.2.2.1]
  rfl

/-- C8: the `R`/`S` fields of every returned authorization are `0x`-prefixed
hex renderings of the corresponding 32 signature bytes with leading zero
bytes stripped (minimal-length, variable-width hex), and a component whose
big-integer value is zero renders as exactly `"0x"`. -/
theorem C8_rs_minimal_hex (C : CurveLib) (ch n priv : Nat) (aHex : String)
    (S : List Nat)
    (hsign : C.sign (authDigest C ch (hexToAddress aHex) n) priv = some S)
    (hb : ∀ b ∈ S, b < 256) :
    SignAuthorization C ch aHex n priv = .ok (mkSignedAuthorization ch aHex n S)
    ∧ (mkSignedAuthorization ch aHex n S).r
        = hexEncode ((S.take 32).dropWhile (fun b => b == 0))
    ∧ (mkSignedAuthorization ch aHex n S).s
        = hexEncode (((S.drop 32).take 32).dropWhile (fun b => b == 0))
    ∧ (bytesToNat (S.take 32) = 0 → (mkSignedAuthorization ch aHex n S).r = "0x") := by
  refine ⟨by simp only [SignAuthorization, hsign], ?_, ?_, ?_⟩
  · simp only [mkSignedAuthorization]
    rw [natToMinBE_bytesToNat_dropWhile _ (fun x hx => hb x (List.take_subset _ _ hx))]
  · simp only [mkSignedAuthorization]
    rw [natToMinBE_bytesToNat_dropWhile _
      (fun x hx => hb x (List.drop_subset _ _ (List.take_subset _ _ hx)))]
  · intro h0
    simp only [mkSignedAuthorization, h0]
    rfl

/-- Witness for C8 at a signature whose `r` component is all zero bytes:
the rendered `R` is exactly `"0x"` and `S` is the two-character minimal
rendering of the single byte 2. -/
theorem C8_witness :
    SignAuthorization toyCurveR0 1 toyAddrHex 0 5
      = .ok (mkSignedAuthorization 1 toyAddrHex 0 toySigR0)
    ∧ (mkSignedAuthorization 1 toyAddrHex 0 toySigR0).r = "0x"
    ∧ (mkSignedAuthorization 1 toyAddrHex 0 toySigR0).s = hexEncode [2] := by
  have h := C8_rs_minimal_hex toyCurveR0 1 0 5 toyAddrHex toySigR0 rfl (by decide)
  refine ⟨h.1, h.2.2.2 (by decide), ?_⟩
  rw [h.2.2.1]
  rfl

/-! ## Poller claims -/

/-- C9: a zero `pollInterval` is replaced by 2 seconds and a zero `timeout`
by 60 seconds (Go durations, in nanoseconds) before polling begins — the
armed deadline and ticker head the action trace, ahead of every attempt —
and nonzero arguments are used unchanged. -/
theorem C9_default_durations {α : Type} (query : Nat → Option α)
    (events : List LoopEvent) (pollInterval timeout : Nat) :
    (WaitForUserOpReceipt query events pollInterval timeout).2.take 2
      = [.armDeadline (if timeout = 0 then 60 * 1000000000 else timeout),
         .armTicker (if pollInterval = 0 then 2 * 1000000000 else pollInterval)] := by
  simp only [WaitForUserOpReceipt]
  cases query 1 with
  | some receipt => rfl
  | none => rfl

/-- C6 (amended): when the injected query succeeds on the immediate first
invocation, the poll returns that receipt after exactly one attempt, with no
further attempts and no loop iteration; however the deadline and the ticker
are armed before the immediate attempt (and both are released on return) —
the code does not avoid arming timers. -/
theorem C6_immediate_success {α : Type} (query : Nat → Option α)
    (events : List LoopEvent) (pollInterval timeout : Nat) (receipt : α)
    (h : query 1 = some receipt) :
    WaitForUserOpReceipt query events pollInterval timeout
      = (.success receipt,
         [.armDeadline (if timeout = 0 then 60 * 1000000000 else timeout),
          .armTicker (if pollInterval = 0 then 2 * 1000000000 else pollInterval),
          .attempt 1, .releaseTimers]) := by
  simp only [WaitForUserOpReceipt, h]
  rfl

/-- Witness for the amended C6: an immediately-succeeding query with both
durations nonzero. -/
theorem C6_witness :
    WaitForUserOpReceipt (fun _ : Nat => some 42) [] 3 4
      = (.success 42, [.armDeadline 4, .armTicker 3, .attempt 1, .releaseTimers]) := by
  have h := C6_immediate_success (fun _ : Nat => some 42) [] 3 4 42 rfl
  simpa using h

/-- Counterexample to C6 as stated: at an immediately-succeeding query the
result is `Succeeded` with exactly one attempt, but the action trace does
contain an armed ticker (and an armed deadline) — the claim's "arms no
timer" conjunct is false: both timers are armed before the immediate
attempt. -/
theorem C6_counterexample :
    WaitForUserOpReceipt (fun _ : Nat => some 42) [] 3 4
      = (.success 42, [.armDeadline 4, .armTicker 3, .attempt 1, .releaseTimers])
    ∧ PollAction.armTicker 3 ∈ (WaitForUserOpReceipt (fun _ : Nat => some 42) [] 3 4).2
    ∧ PollAction.armDeadline 4 ∈ (WaitForUserOpReceipt (fun _ : Nat => some 42) [] 3 4).2 :=
  ⟨rfl, by decide, by decide⟩

/-- C3 (amended): cancelling before the deadline terminates the poll at the
next wait point, but it is surfaced as the same timed-out error (with the
attempt count) that deadline expiry produces — not as a distinct `Cancelled`
outcome: the loop's single done-channel case cannot observe the reason, so
the result of a run is invariant under changing the reasons of its done
events. -/
theorem C3_cancellation_reported_as_timeout {α : Type} (query : Nat → Option α)
    (pollInterval timeout : Nat) (flag : Bool) (rest : List LoopEvent)
    (h1 : query 1 = none) :
    (WaitForUserOpReceipt query (.done flag :: rest) pollInterval timeout).1
      = .timedOutMsg 1
    ∧ ∀ ev ev' : List LoopEvent, ev.map LoopEvent.shape = ev'.map LoopEvent.shape →
        WaitForUserOpReceipt query ev pollInterval timeout
          = WaitForUserOpReceipt query ev' pollInterval timeout := by
  have haux : ∀ ev ev' : List LoopEvent,
      ev.map LoopEvent.shape = ev'.map LoopEvent.shape → ∀ k : Nat,
      waitLoopAux query ev k = waitLoopAux query ev' k := by
    intro ev
    induction ev with
    | nil =>
      intro ev' hsh k
      cases ev' with
      | nil => rfl
      | cons e' t' => simp at hsh
    | cons e t ih =>
      intro ev' hsh k
      cases ev' with
      | nil => simp at hsh
      | cons e' t' =>
        simp only [List.map_cons, List.cons.injEq] at hsh
        obtain ⟨hhd, htl⟩ := hsh
        cases e with
        | done f =>
          cases e' with
          | done f' => rfl
          | tick => simp [LoopEvent.shape] at hhd
        | tick =>
          cases e' with
          | done f' => simp [LoopEvent.shape] at hhd
          | tick =>
            simp only [waitLoopAux]
            cases query k with
            | some receipt => rfl
            | none => simp only [ih t' htl (k + 1)]
  constructor
  · simp only [WaitForUserOpReceipt, h1]
    rfl
  · intro ev ev' hsh
    simp only [WaitForUserOpReceipt, h1]
    rw [haux ev ev' hsh 2]

/-- Witness for the amended C3: an always-failing query cancelled at the
first wait point. -/
theorem C3_witness :
    (WaitForUserOpReceipt (fun _ : Nat => (none : Option Nat))
        [.done true] 5 7).1 = .timedOutMsg 1
    ∧ WaitForUserOpReceipt (fun _ : Nat => (none : Option Nat)) [.tick, .done true] 5 7
      = WaitForUserOpReceipt (fun _ : Nat => (none : Option Nat)) [.tick, .done false] 5 7 := by
  have h := C3_cancellation_reported_as_timeout
    (fun _ : Nat => (none : Option Nat)) 5 7 true [] rfl
  exact ⟨h.1, h.2 [.tick, .done true] [.tick, .done false] rfl⟩

/-- Counterexample to C3 as stated: a run cancelled before the deadline
(done event with the cancellation reason) returns exactly the same
timed-out outcome as a run in which the deadline expired — there is no
distinct `Cancelled` outcome; the code's only non-success exit is the
timed-out error. -/
theorem C3_counterexample :
    WaitForUserOpReceipt (fun _ : Nat => (none : Option Nat)) [.done true] 5 7
      = WaitForUserOpReceipt (fun _ : Nat => (none : Option Nat)) [.done false] 5 7
    ∧ (WaitForUserOpReceipt (fun _ : Nat => (none : Option Nat)) [.done true] 5 7).1
      = .timedOutMsg 1 :=
  ⟨rfl, rfl⟩
